import Mathlib

/-!
Verification development for the workout-plan prescription engine.

The repository contains two implementations of the prescription resolver
`calculatePrescriptionForWeek` (one in `src/src/utils.ts`, one in the
unnamed source file `part_001`), together with the target formatter
`formatExerciseTarget` (only in `part_001`).  This file gives a shallow
embedding of both implementations and proves/refutes the specification
claims about them.

JavaScript numbers that can become `NaN` (via `parseInt` of a malformed
string) are modelled by `JsNum`; absent (`undefined`) object fields are
modelled by `Option`.
-/

/-- A JavaScript number as used by the resolver: either an actual integer
or `NaN` (the result of `parseInt` on a malformed string; `NaN` is
absorbing under `+`). -/
inductive JsNum where
  | nan : JsNum
  | int : Int → JsNum
deriving DecidableEq, Repr

/-- JavaScript `+` on numbers: `NaN` is absorbing. -/
def jsAdd : JsNum → JsNum → JsNum
  | .int a, .int b => .int (a + b)
  | _, _ => .nan

/-- JavaScript `(x || 0)` on a possibly-absent number: `undefined`, `NaN`
and `0` are falsy and give `0`; any other number gives itself (for `0`
the result `0` coincides with the value, so defined numbers map to
themselves). -/
def jsOrZero : Option JsNum → JsNum
  | some (.int z) => .int z
  | _ => .int 0

/-- JavaScript number-to-string as used in template literals:
`NaN` prints as `"NaN"`, integers print in decimal. -/
def jsNumToString : JsNum → String
  | .nan => "NaN"
  | .int z => toString z

/-- `PrescriptionItem` from `src/src/types.ts`: one exercise's prescribed
workload.  `sets` is required in the TypeScript interface but the delta
code treats every numeric field uniformly, so all numeric fields are
modelled as possibly-absent. -/
structure PrescriptionItem where
  name : String
  sets : Option JsNum := none
  reps : Option JsNum := none
  hold_seconds : Option JsNum := none
  reps_each_side : Option JsNum := none
  hold_seconds_each_side : Option JsNum := none
  weight_kg : Option JsNum := none
  distance_m : Option JsNum := none
deriving DecidableEq, Repr

/-- A `day_prescription` mapping (day name → item list), modelled as an
association list in insertion order (JavaScript `for...in` iterates
string keys in insertion order). -/
abbrev DayMap : Type := List (String × List PrescriptionItem)

/-- `WeekPrescription` from `src/src/types.ts`.  The delta mapping is an
association list of (delta key, delta value string) in insertion order. -/
structure WeekPrescription where
  week : Nat
  day_prescription : Option DayMap := none
  delta_from_previous_week : Option (List (String × String)) := none

/-- `TrainingProgram` from `src/src/types.ts`; only `weekly_targets` is
read by the resolver, the other fields are display metadata. -/
structure TrainingProgram where
  program_name : String := ""
  duration_weeks : Nat := 0
  weekly_targets : List WeekPrescription

/-! ### JavaScript string primitives used by the two resolvers -/

/-- Decimal digits accumulated into a natural number
(`acc` is the value of the digits already consumed). -/
def parseDigits : List Char → Nat → Nat
  | [], acc => acc
  | c :: cs, acc =>
    if c.isDigit then parseDigits cs (acc * 10 + (c.toNat - '0'.toNat)) else acc

/-- Whether the list starts with at least one decimal digit. -/
def startsWithDigit : List Char → Bool
  | [] => false
  | c :: _ => c.isDigit

/-- JavaScript `parseInt(s)` (radix unspecified, hex prefixes left aside —
no delta value in this code base uses one): skip leading whitespace, read
an optional sign, then read decimal digits greedily, ignoring any
trailing characters; if no digit follows the sign the result is `NaN`. -/
def parseIntJs (s : String) : JsNum :=
  let l := s.data.dropWhile (fun c => c = ' ' ∨ c = '\t' ∨ c = '\n' ∨ c = '\r')
  match l with
  | '+' :: rest =>
      if startsWithDigit rest then .int (parseDigits rest 0) else .nan
  | '-' :: rest =>
      if startsWithDigit rest then .int (-(parseDigits rest 0 : Int)) else .nan
  | rest =>
      if startsWithDigit rest then .int (parseDigits rest 0) else .nan

/-- JavaScript `s.endsWith(t)`. -/
def endsWithJs (s t : String) : Bool := t.data.isSuffixOf s.data

/-- The prefix of a character list up to (excluding) the first `'_'`;
the whole list if there is none. -/
def takeUntilUnderscore : List Char → List Char
  | [] => []
  | c :: cs => if c = '_' then [] else c :: takeUntilUnderscore cs

/-- The prefix of a character list before its last `'_'`; `[]` if there is
none (JavaScript `s.substring(0, s.lastIndexOf('_'))`, where
`lastIndexOf` returning `-1` is clamped to `0` by `substring`). -/
def beforeLastUnderscore (l : List Char) : List Char :=
  ((l.reverse.dropWhile (fun c => c ≠ '_')).drop 1).reverse

namespace UtilsTs

/-!
Embedding of `calculatePrescriptionForWeek` from `src/src/utils.ts`.

The delta key is split as `const [exerciseName, field] = deltaKey.split('_')`,
so the exercise name is the segment before the *first* underscore.  A delta
is applied only when the targeted field is already defined
(`newItem.reps !== undefined`), and only the `_reps` and `_hold_seconds`
suffixes are handled.
-/

/-- `deltaKey.split('_')[0]`. -/
def exerciseNameOf (deltaKey : String) : String :=
  ⟨takeUntilUnderscore deltaKey.data⟩

/-- The body of the inner `for (const deltaKey in deltas)` loop for a
single delta entry, acting on the (mutable, shallow-copied) item. -/
def applyDeltaKey (item : PrescriptionItem) (deltaKey deltaVal : String) :
    PrescriptionItem :=
  if item.name = exerciseNameOf deltaKey then
    let deltaValue := parseIntJs deltaVal
    match endsWithJs deltaKey "_reps", item.reps with
    | true, some r => { item with reps := some (jsAdd r deltaValue) }
    | _, _ =>
      match endsWithJs deltaKey "_hold_seconds", item.hold_seconds with
      | true, some h => { item with hold_seconds := some (jsAdd h deltaValue) }
      | _, _ => item
  else item

/-- One item processed against the whole delta mapping: the source
shallow-copies the item (`{ ...item }`) and then mutates the copy once
per delta key, in insertion order. -/
def applyDeltas (deltas : List (String × String)) (item : PrescriptionItem) :
    PrescriptionItem :=
  deltas.foldl (fun it kv => applyDeltaKey it kv.1 kv.2) item

/-- The delta branch: every day in the working prescription has its item
list rebuilt by mapping the per-item update. -/
def applyDeltasToAllDays (deltas : List (String × String)) (cur : DayMap) :
    DayMap :=
  cur.map (fun dayEntry => (dayEntry.1, dayEntry.2.map (applyDeltas deltas)))

/-- One iteration of the `for (let w = 1; w <= targetWeek; w++)` loop:
find the first entry for week `w` (`Array.prototype.find`), then either
reset to a deep copy of its snapshot, apply its deltas, or do nothing. -/
def stepWeek (targets : List WeekPrescription) (cur : DayMap) (w : Nat) :
    DayMap :=
  match targets.find? (fun t => t.week == w) with
  | none => cur
  | some weekData =>
    match weekData.day_prescription with
    | some dp => dp
    | none =>
      match weekData.delta_from_previous_week with
      | some deltas => applyDeltasToAllDays deltas cur
      | none => cur

/-- `calculatePrescriptionForWeek` from `src/src/utils.ts`. -/
def calculatePrescriptionForWeek (program : TrainingProgram)
    (targetWeek : Nat) : DayMap :=
  (((List.range targetWeek).map (· + 1)).foldl
    (stepWeek program.weekly_targets) ([] : DayMap))

end UtilsTs

namespace Part001

/-!
Embedding of `calculatePrescriptionForWeek` and `formatExerciseTarget`
from the unnamed source file `part_001`.

The delta key is split at its *last* underscore
(`deltaKey.substring(0, deltaKey.lastIndexOf('_'))`); the field is chosen
by an `endsWith` chain over the five recognized suffixes, and an absent
field is treated as `0` (`(newItem.reps || 0) + deltaValue`).
-/

/-- `deltaKey.substring(0, deltaKey.lastIndexOf('_'))`. -/
def exerciseNameOf (deltaKey : String) : String :=
  ⟨beforeLastUnderscore deltaKey.data⟩

/-- The body of the inner `for (const deltaKey in deltas)` loop for a
single delta entry, acting on the (mutable, shallow-copied) item. -/
def applyDeltaKey (item : PrescriptionItem) (deltaKey deltaVal : String) :
    PrescriptionItem :=
  if item.name = exerciseNameOf deltaKey then
    let deltaValue := parseIntJs deltaVal
    if endsWithJs deltaKey "_reps" then
      { item with reps := some (jsAdd (jsOrZero item.reps) deltaValue) }
    else if endsWithJs deltaKey "_hold_seconds" then
      { item with hold_seconds := some (jsAdd (jsOrZero item.hold_seconds) deltaValue) }
    else if endsWithJs deltaKey "_reps_each_side" then
      { item with reps_each_side := some (jsAdd (jsOrZero item.reps_each_side) deltaValue) }
    else if endsWithJs deltaKey "_hold_seconds_each_side" then
      { item with hold_seconds_each_side := some (jsAdd (jsOrZero item.hold_seconds_each_side) deltaValue) }
    else if endsWithJs deltaKey "_sets" then
      { item with sets := some (jsAdd (jsOrZero item.sets) deltaValue) }
    else item
  else item

/-- One item processed against the whole delta mapping (shallow copy, then
one mutation per delta key, in insertion order). -/
def applyDeltas (deltas : List (String × String)) (item : PrescriptionItem) :
    PrescriptionItem :=
  deltas.foldl (fun it kv => applyDeltaKey it kv.1 kv.2) item

/-- The delta branch: every day's item list is rebuilt by mapping the
per-item update. -/
def applyDeltasToAllDays (deltas : List (String × String)) (cur : DayMap) :
    DayMap :=
  cur.map (fun dayEntry => (dayEntry.1, dayEntry.2.map (applyDeltas deltas)))

/-- One iteration of the week loop, as in `UtilsTs.stepWeek` but with this
file's delta handling. -/
def stepWeek (targets : List WeekPrescription) (cur : DayMap) (w : Nat) :
    DayMap :=
  match targets.find? (fun t => t.week == w) with
  | none => cur
  | some weekData =>
    match weekData.day_prescription with
    | some dp => dp
    | none =>
      match weekData.delta_from_previous_week with
      | some deltas => applyDeltasToAllDays deltas cur
      | none => cur

/-- `calculatePrescriptionForWeek` from `part_001`. -/
def calculatePrescriptionForWeek (program : TrainingProgram)
    (targetWeek : Nat) : DayMap :=
  (((List.range targetWeek).map (· + 1)).foldl
    (stepWeek program.weekly_targets) ([] : DayMap))

/-- `formatExerciseTarget` from `part_001`: first defined field wins, in
the order `reps`, `reps_each_side`, `hold_seconds`,
`hold_seconds_each_side`; otherwise `"0"`. -/
def formatExerciseTarget (ex : PrescriptionItem) : String :=
  match ex.reps with
  | some r => jsNumToString r
  | none =>
    match ex.reps_each_side with
    | some r => jsNumToString r ++ " (each)"
    | none =>
      match ex.hold_seconds with
      | some h => jsNumToString h ++ "s"
      | none =>
        match ex.hold_seconds_each_side with
        | some h => jsNumToString h ++ "s (each)"
        | none => "0"

end Part001

/-! ### Concrete programs used by the claims (from the spec's examples) -/

/-- The week-1 `plank` item of the spec's delta-accumulation example. -/
def plankItem : PrescriptionItem :=
  { name := "plank", sets := some (.int 3), hold_seconds := some (.int 30) }

/-- The delta-accumulation example program: week-1 snapshot
`{monday: [{name: "plank", sets: 3, hold_seconds: 30}]}` and week-2
`{delta_from_previous_week: {"plank_hold_seconds": "+10"}}`. -/
def progPlank : TrainingProgram :=
  { weekly_targets :=
      [ { week := 1, day_prescription := some [("monday", [plankItem])] },
        { week := 2,
          delta_from_previous_week := some [("plank_hold_seconds", "+10")] } ] }

/-- A `push_up` item with 3 sets and 10 reps. -/
def pushUpItem : PrescriptionItem :=
  { name := "push_up", sets := some (.int 3), reps := some (.int 10) }

/-- The suffix-disambiguation example program: week-1 snapshot with
`push_up`, week-2 delta `{"push_up_reps": "+2"}`. -/
def progPushUp : TrainingProgram :=
  { weekly_targets :=
      [ { week := 1, day_prescription := some [("monday", [pushUpItem])] },
        { week := 2,
          delta_from_previous_week := some [("push_up_reps", "+2")] } ] }

/-- A `push` item with 3 sets and no `reps` field. -/
def pushItem : PrescriptionItem := { name := "push", sets := some (.int 3) }

/-- A program whose week-2 delta `{"push_reps": "+5"}` targets the `reps`
field of an item on which that field is absent. -/
def progAbsentField : TrainingProgram :=
  { weekly_targets :=
      [ { week := 1, day_prescription := some [("monday", [pushItem])] },
        { week := 2, delta_from_previous_week := some [("push_reps", "+5")] } ] }

/-- A `plank` item with 3 sets and 10 reps. -/
def plankRepsItem : PrescriptionItem :=
  { name := "plank", sets := some (.int 3), reps := some (.int 10) }

/-- A program whose week-2 delta value `"abc"` is not a signed integer and
whose key `"plank_reps"` matches the week-1 item in both implementations. -/
def progMalformed : TrainingProgram :=
  { weekly_targets :=
      [ { week := 1, day_prescription := some [("monday", [plankRepsItem])] },
        { week := 2, delta_from_previous_week := some [("plank_reps", "abc")] } ] }

/-!
The two resolvers differ only in the per-delta-key item update
(`applyDeltaKey`); the surrounding loop structure — deep copy of
snapshots, spread-copy of items, iteration over weeks/days/items — is
textually identical in the two files.  The following generic definitions
abstract that shared structure over the per-key update; instantiated at
`UtilsTs.applyDeltaKey` or `Part001.applyDeltaKey` they are definitionally
the respective resolver. -/

/-- Generic per-item delta fold (one shallow copy, one `upd` per key). -/
def applyDeltasG (upd : PrescriptionItem → String → String → PrescriptionItem)
    (deltas : List (String × String)) (item : PrescriptionItem) :
    PrescriptionItem :=
  deltas.foldl (fun it kv => upd it kv.1 kv.2) item

/-- Generic delta branch over all days. -/
def applyDeltasToAllDaysG
    (upd : PrescriptionItem → String → String → PrescriptionItem)
    (deltas : List (String × String)) (cur : DayMap) : DayMap :=
  cur.map (fun dayEntry => (dayEntry.1, dayEntry.2.map (applyDeltasG upd deltas)))

/-- Generic week iteration. -/
def stepWeekG (upd : PrescriptionItem → String → String → PrescriptionItem)
    (targets : List WeekPrescription) (cur : DayMap) (w : Nat) : DayMap :=
  match targets.find? (fun t => t.week == w) with
  | none => cur
  | some weekData =>
    match weekData.day_prescription with
    | some dp => dp
    | none =>
      match weekData.delta_from_previous_week with
      | some deltas => applyDeltasToAllDaysG upd deltas cur
      | none => cur

/-- Generic resolver skeleton. -/
def calculatePrescriptionForWeekG
    (upd : PrescriptionItem → String → String → PrescriptionItem)
    (program : TrainingProgram) (targetWeek : Nat) : DayMap :=
  (((List.range targetWeek).map (· + 1)).foldl
    (stepWeekG upd program.weekly_targets) ([] : DayMap))

namespace Heap

/-!
A heap-level model of the two resolvers, used to verify the
non-mutation claim.  `PrescriptionItem` objects live in a store (address =
list index, allocation appends); `day_prescription` values and the working
prescription hold item *addresses*.  `JSON.parse(JSON.stringify(...))`
becomes an allocating deep copy, the spread `{ ...item }` becomes an
allocating shallow copy, and the per-delta-key mutations become store
writes at the copy's address.  (Snapshots held by a program originate from
`JSON.parse` at import time, so their numeric values are actual numbers;
the JSON round-trip is therefore a value-preserving copy.)
-/

/-- The store of heap-allocated items. -/
abbrev Store : Type := List PrescriptionItem

/-- Placeholder returned when reading a dangling address. -/
def defaultItem : PrescriptionItem := { name := "" }

/-- Read the item object at address `a`. -/
def readItem (σ : Store) (a : Nat) : PrescriptionItem := σ.getD a defaultItem

/-- Overwrite the item object at address `a` (mutation of that object). -/
def writeItem (σ : Store) (a : Nat) (it : PrescriptionItem) : Store :=
  σ.set a it

/-- Allocate a fresh item object; returns the new store and the address. -/
def alloc (σ : Store) (it : PrescriptionItem) : Store × Nat :=
  (σ ++ [it], σ.length)

/-- A `day_prescription` at heap level: day name ↦ item addresses. -/
abbrev HDayMap : Type := List (String × List Nat)

/-- `WeekPrescription` whose snapshot holds item addresses. -/
structure HWeekPrescription where
  week : Nat
  day_prescription : Option HDayMap := none
  delta_from_previous_week : Option (List (String × String)) := none

/-- `TrainingProgram` at heap level. -/
structure HTrainingProgram where
  weekly_targets : List HWeekPrescription

/-- Copy a list of items into fresh objects (part of the JSON round-trip). -/
def copyItems (σ : Store) (as : List Nat) : Store × List Nat :=
  match as with
  | [] => (σ, [])
  | a :: rest =>
    let p := alloc σ (readItem σ a)
    let q := copyItems p.1 rest
    (q.1, p.2 :: q.2)

/-- `JSON.parse(JSON.stringify(dp))`: fresh objects for every item of every
day, same values. -/
def deepCopyDayMap (σ : Store) (dp : HDayMap) : Store × HDayMap :=
  match dp with
  | [] => (σ, [])
  | (day, items) :: rest =>
    let p := copyItems σ items
    let q := deepCopyDayMap p.1 rest
    (q.1, (day, p.2) :: q.2)

/-- `const newItem = { ...item }` followed by one in-place mutation of
`newItem` per delta key: allocate a shallow copy, then fold the store
writes over the delta entries. -/
def updateItemH (upd : PrescriptionItem → String → String → PrescriptionItem)
    (deltas : List (String × String)) (σ : Store) (a : Nat) :
    Store × Nat :=
  let p := alloc σ (readItem σ a)
  let σ2 := deltas.foldl
    (fun σc kv => writeItem σc p.2 (upd (readItem σc p.2) kv.1 kv.2))
    p.1
  (σ2, p.2)

/-- `currentPrescription[day].map(item => ...)` at heap level. -/
def updateItemsH (upd : PrescriptionItem → String → String → PrescriptionItem)
    (deltas : List (String × String)) (σ : Store)
    (as : List Nat) : Store × List Nat :=
  match as with
  | [] => (σ, [])
  | a :: rest =>
    let p := updateItemH upd deltas σ a
    let q := updateItemsH upd deltas p.1 rest
    (q.1, p.2 :: q.2)

/-- The delta branch at heap level. -/
def applyDeltasToAllDaysH
    (upd : PrescriptionItem → String → String → PrescriptionItem)
    (deltas : List (String × String)) (σ : Store)
    (cur : HDayMap) : Store × HDayMap :=
  match cur with
  | [] => (σ, [])
  | (day, items) :: rest =>
    let p := updateItemsH upd deltas σ items
    let q := applyDeltasToAllDaysH upd deltas p.1 rest
    (q.1, (day, p.2) :: q.2)

/-- One iteration of the week loop at heap level. -/
def stepWeekH (upd : PrescriptionItem → String → String → PrescriptionItem)
    (targets : List HWeekPrescription) (s : Store × HDayMap)
    (w : Nat) : Store × HDayMap :=
  match targets.find? (fun t => t.week == w) with
  | none => s
  | some weekData =>
    match weekData.day_prescription with
    | some dp => deepCopyDayMap s.1 dp
    | none =>
      match weekData.delta_from_previous_week with
      | some deltas => applyDeltasToAllDaysH upd deltas s.1 s.2
      | none => s

/-- The resolver at heap level (instantiate `upd` with
`UtilsTs.applyDeltaKey` or `Part001.applyDeltaKey`): returns the final
store and the addresses of the resulting working prescription. -/
def calculatePrescriptionForWeekH
    (upd : PrescriptionItem → String → String → PrescriptionItem)
    (σ : Store) (program : HTrainingProgram)
    (targetWeek : Nat) : Store × HDayMap :=
  (((List.range targetWeek).map (· + 1)).foldl
    (stepWeekH upd program.weekly_targets) ((σ, []) : Store × HDayMap))

/-- Dereference a heap day map to its value-level contents. -/
def derefDayMap (σ : Store) (h : HDayMap) : DayMap :=
  h.map (fun e => (e.1, e.2.map (readItem σ)))

/-- Dereference a heap week entry. -/
def derefWeek (σ : Store) (w : HWeekPrescription) : WeekPrescription :=
  { week := w.week,
    day_prescription := w.day_prescription.map (derefDayMap σ),
    delta_from_previous_week := w.delta_from_previous_week }

/-- Dereference a heap program: the value-level program it denotes. -/
def derefProgram (σ : Store) (p : HTrainingProgram) : TrainingProgram :=
  { weekly_targets := p.weekly_targets.map (derefWeek σ) }

/-- Every address of the day map is allocated in `σ`. -/
def validDayMapB (σ : Store) (h : HDayMap) : Bool :=
  h.all (fun e => e.2.all (fun a => a < σ.length))

/-- Every address reachable from the program's snapshots is allocated. -/
def validProgramB (σ : Store) (p : HTrainingProgram) : Bool :=
  p.weekly_targets.all (fun w =>
    match w.day_prescription with
    | some dp => validDayMapB σ dp
    | none => true)

/-- `σ'` extends `σ`: same contents at every address of `σ`
(new objects may have been allocated after them). -/
def StoreExtends (σ σ' : Store) : Prop :=
  σ.length ≤ σ'.length ∧ ∀ i < σ.length, σ'[i]? = σ[i]?

/-- A concrete one-item store for exercising the heap resolver. -/
def storeEx : Store := [plankItem]

/-- The heap-level delta-accumulation example program: the week-1 snapshot
holds the address of `plankItem` in `storeEx`. -/
def progHeapEx : HTrainingProgram :=
  { weekly_targets :=
      [ { week := 1, day_prescription := some [("monday", [0])] },
        { week := 2,
          delta_from_previous_week := some [("plank_hold_seconds", "+10")] } ] }

end Heap

/-- A snapshot-only program (no delta entries anywhere). -/
def progSnapshotOnly : TrainingProgram :=
  { weekly_targets :=
      [ { week := 1, day_prescription := some [("monday", [plankItem])] },
        { week := 2, day_prescription := some [("tuesday", [pushUpItem])] } ] }

/-- A one-entry `weekly_targets` list for week 1. -/
def dupTargetsA : List WeekPrescription :=
  [{ week := 1, day_prescription := some [("monday", [plankItem])] }]

/-- Another week-1 entry with a different snapshot, to be appended after
`dupTargetsA` as a duplicate. -/
def dupTargetsB : List WeekPrescription :=
  [{ week := 1, day_prescription := some [("monday", [pushUpItem])] }]

/-! ### Helper lemmas -/

/-- `jsAdd` with `NaN` on the right is `NaN`. -/
theorem jsAdd_nan_right (x : JsNum) : jsAdd x .nan = .nan := by
  cases x <;> rfl

/-- Splitting at the last underscore removes a recognized suffix exactly
when the suffix contains a single underscore at its head: appending
`'_' :: tail` (with no underscore in `tail`) to any name and splitting
at the last underscore gives the name back. -/
theorem beforeLastUnderscore_append (l tail : List Char) (h : '_' ∉ tail) :
    beforeLastUnderscore (l ++ '_' :: tail) = l := by
  unfold beforeLastUnderscore
  have h1 : (l ++ '_' :: tail).reverse = tail.reverse ++ '_' :: l.reverse := by
    rw [List.reverse_append, List.reverse_cons, List.append_assoc]
    rfl
  rw [h1]
  have h2 : (tail.reverse.dropWhile (fun c => c ≠ '_')) = [] := by
    rw [List.dropWhile_eq_nil_iff]
    intro c hc
    simp only [List.mem_reverse] at hc
    simp only [ne_eq, decide_eq_true_eq]
    exact fun hcu => h (hcu ▸ hc)
  rw [List.dropWhile_append, h2]
  simp [List.dropWhile_cons]

/-- A delta key built as `name ++ "_reps"` splits (in the `part_001`
last-underscore scheme) back into `name`. -/
theorem part001_exerciseNameOf_reps (name : String) :
    Part001.exerciseNameOf (name ++ "_reps") = name := by
  unfold Part001.exerciseNameOf
  rw [String.data_append name "_reps"]
  have : ("_reps" : String).data = '_' :: "reps".data := by decide
  rw [this, beforeLastUnderscore_append _ _ (by decide)]

/-- A delta key built as `name ++ "_sets"` splits (in the `part_001`
last-underscore scheme) back into `name`. -/
theorem part001_exerciseNameOf_sets (name : String) :
    Part001.exerciseNameOf (name ++ "_sets") = name := by
  unfold Part001.exerciseNameOf
  rw [String.data_append name "_sets"]
  have : ("_sets" : String).data = '_' :: "sets".data := by decide
  rw [this, beforeLastUnderscore_append _ _ (by decide)]

/-- `name ++ suffix` always ends with `suffix`. -/
theorem endsWithJs_append (name suffix : String) :
    endsWithJs (name ++ suffix) suffix = true := by
  unfold endsWithJs
  rw [String.data_append name suffix]
  simp [List.isSuffixOf_iff_suffix]

/-- Unfolding the week loop of the `utils.ts` resolver by its last
iteration. -/
theorem utils_calc_succ (p : TrainingProgram) (n : Nat) :
    UtilsTs.calculatePrescriptionForWeek p (n + 1) =
      UtilsTs.stepWeek p.weekly_targets
        (UtilsTs.calculatePrescriptionForWeek p n) (n + 1) := by
  unfold UtilsTs.calculatePrescriptionForWeek
  rw [List.range_succ, List.map_append, List.foldl_append]
  rfl

/-- Unfolding the week loop of the `part_001` resolver by its last
iteration. -/
theorem part001_calc_succ (p : TrainingProgram) (n : Nat) :
    Part001.calculatePrescriptionForWeek p (n + 1) =
      Part001.stepWeek p.weekly_targets
        (Part001.calculatePrescriptionForWeek p n) (n + 1) := by
  unfold Part001.calculatePrescriptionForWeek
  rw [List.range_succ, List.map_append, List.foldl_append]
  rfl

/-- A week with no matching entry leaves the working prescription
unchanged (`utils.ts`). -/
theorem utils_stepWeek_absent (T : List WeekPrescription) (cur : DayMap)
    (w : Nat) (h : T.find? (fun t => t.week == w) = none) :
    UtilsTs.stepWeek T cur w = cur := by
  simp [UtilsTs.stepWeek, h]

/-- A week with no matching entry leaves the working prescription
unchanged (`part_001`). -/
theorem part001_stepWeek_absent (T : List WeekPrescription) (cur : DayMap)
    (w : Nat) (h : T.find? (fun t => t.week == w) = none) :
    Part001.stepWeek T cur w = cur := by
  simp [Part001.stepWeek, h]

/-- A located entry with a snapshot resets the working prescription to
that snapshot, whatever was accumulated before (`utils.ts`). -/
theorem utils_stepWeek_snapshot (T : List WeekPrescription) (cur : DayMap)
    (w : Nat) (wd : WeekPrescription) (dp : DayMap)
    (h : T.find? (fun t => t.week == w) = some wd)
    (hdp : wd.day_prescription = some dp) :
    UtilsTs.stepWeek T cur w = dp := by
  simp [UtilsTs.stepWeek, h, hdp]

/-- A located entry with a snapshot resets the working prescription to
that snapshot, whatever was accumulated before (`part_001`). -/
theorem part001_stepWeek_snapshot (T : List WeekPrescription) (cur : DayMap)
    (w : Nat) (wd : WeekPrescription) (dp : DayMap)
    (h : T.find? (fun t => t.week == w) = some wd)
    (hdp : wd.day_prescription = some dp) :
    Part001.stepWeek T cur w = dp := by
  simp [Part001.stepWeek, h, hdp]

/-! ### Claim theorems -/

/-- C1: Delta accumulation.  For the spec's example program (week-1
snapshot `monday: plank, sets 3, hold_seconds 30`; week-2 delta
`plank_hold_seconds: "+10"`), the `utils.ts` resolver returns
`hold_seconds = 40` for week 2 and `hold_seconds = 30` for week 1, as the
claim states.  The `part_001` resolver, however, returns `hold_seconds =
30` for week 2 as well: it extracts the exercise name from the delta key
by taking the prefix before the key's last underscore, so
`"plank_hold_seconds"` is parsed as exercise `"plank_hold"`, which
matches no item — contradicting that implementation's own code comment
("Check for specific deltas like 'plank_hold_seconds'"). -/
theorem claim_C1_delta_accumulation_divergence :
    UtilsTs.calculatePrescriptionForWeek progPlank 2 =
      [("monday", [{ plankItem with hold_seconds := some (.int 40) }])] ∧
    Part001.calculatePrescriptionForWeek progPlank 2 =
      [("monday", [plankItem])] ∧
    UtilsTs.calculatePrescriptionForWeek progPlank 1 =
      [("monday", [plankItem])] ∧
    Part001.calculatePrescriptionForWeek progPlank 1 =
      [("monday", [plankItem])] := by
  refine ⟨by decide, by decide, by decide, by decide⟩

/-- C2 counterexample: neither implementation splits delta keys by trying
the recognized suffixes longest-first.  For the key
`"plank_hold_seconds"` the claim's split gives exercise name `"plank"`
(suffix `_hold_seconds` removed), but `part_001` extracts
`"plank_hold"` (prefix before the last underscore); for the key
`"push_up_reps"` the claim's split gives `"push_up"`, but `utils.ts`
extracts `"push"` (prefix before the first underscore). -/
theorem claim_C2_counterexample :
    Part001.exerciseNameOf "plank_hold_seconds" = "plank_hold" ∧
    Part001.exerciseNameOf "plank_hold_seconds" ≠ "plank" ∧
    UtilsTs.exerciseNameOf "push_up_reps" = "push" ∧
    UtilsTs.exerciseNameOf "push_up_reps" ≠ "push_up" := by
  refine ⟨by decide, by decide, by decide, by decide⟩

/-- C2 (amended): `part_001` splits every delta key at its *last*
underscore (exercise name = prefix before it), which coincides with
suffix removal exactly for the single-underscore suffixes `_reps` and
`_sets`; in particular an item named `push_up` with delta key
`push_up_reps` has its `reps` incremented (not misparsed as exercise
`push`).  `utils.ts` splits at the *first* underscore and does misparse
`push_up_reps` as exercise `push`, leaving the `push_up` item
unchanged. -/
theorem claim_C2_amended_last_underscore_split :
    (∀ name : String, Part001.exerciseNameOf (name ++ "_reps") = name) ∧
    (∀ name : String, Part001.exerciseNameOf (name ++ "_sets") = name) ∧
    (∀ key : String, Part001.exerciseNameOf key = ⟨beforeLastUnderscore key.data⟩) ∧
    Part001.calculatePrescriptionForWeek progPushUp 2 =
      [("monday", [{ pushUpItem with reps := some (.int 12) }])] ∧
    UtilsTs.calculatePrescriptionForWeek progPushUp 2 =
      [("monday", [pushUpItem])] := by
  refine ⟨part001_exerciseNameOf_reps, part001_exerciseNameOf_sets,
    fun key => rfl, by decide, by decide⟩

/-- C5 counterexample: a malformed delta value does not make the resolver
fail.  JavaScript `parseInt` is total — on a string with no leading
integer it returns `NaN` rather than throwing — so for the program whose
week-2 delta is `{"plank_reps": "abc"}` both resolvers return normally,
with the matched `reps` field set to `NaN` (silently corrupting the
prescription instead of raising a ParseError; zero is not substituted
either). -/
theorem claim_C5_counterexample :
    parseIntJs "abc" = JsNum.nan ∧
    Part001.calculatePrescriptionForWeek progMalformed 2 =
      [("monday", [{ plankRepsItem with reps := some JsNum.nan }])] ∧
    UtilsTs.calculatePrescriptionForWeek progMalformed 2 =
      [("monday", [{ plankRepsItem with reps := some JsNum.nan }])] := by
  refine ⟨by decide, by decide, by decide⟩

/-- C5 (amended): when a delta value string does not parse as a signed
integer, `parseInt` yields `NaN` and the resolvers complete normally,
storing `NaN` into the matched field — `part_001` for every one of its
five recognized suffixes (tested in the source's `endsWith` chain order;
absent treated as 0, and `0 + NaN = NaN` as well as `n + NaN = NaN`),
`utils.ts` for its two handled suffixes whenever the field was defined.
Zero is never substituted for the unparseable delta. -/
theorem claim_C5_amended_nan_is_stored :
    (∀ (item : PrescriptionItem) (k v : String), parseIntJs v = JsNum.nan →
      item.name = Part001.exerciseNameOf k → endsWithJs k "_reps" = true →
      (Part001.applyDeltaKey item k v).reps = some JsNum.nan) ∧
    (∀ (item : PrescriptionItem) (k v : String), parseIntJs v = JsNum.nan →
      item.name = Part001.exerciseNameOf k →
      endsWithJs k "_reps" = false → endsWithJs k "_hold_seconds" = true →
      (Part001.applyDeltaKey item k v).hold_seconds = some JsNum.nan) ∧
    (∀ (item : PrescriptionItem) (k v : String), parseIntJs v = JsNum.nan →
      item.name = Part001.exerciseNameOf k →
      endsWithJs k "_reps" = false → endsWithJs k "_hold_seconds" = false →
      endsWithJs k "_reps_each_side" = true →
      (Part001.applyDeltaKey item k v).reps_each_side = some JsNum.nan) ∧
    (∀ (item : PrescriptionItem) (k v : String), parseIntJs v = JsNum.nan →
      item.name = Part001.exerciseNameOf k →
      endsWithJs k "_reps" = false → endsWithJs k "_hold_seconds" = false →
      endsWithJs k "_reps_each_side" = false →
      endsWithJs k "_hold_seconds_each_side" = true →
      (Part001.applyDeltaKey item k v).hold_seconds_each_side
        = some JsNum.nan) ∧
    (∀ (item : PrescriptionItem) (k v : String), parseIntJs v = JsNum.nan →
      item.name = Part001.exerciseNameOf k →
      endsWithJs k "_reps" = false → endsWithJs k "_hold_seconds" = false →
      endsWithJs k "_reps_each_side" = false →
      endsWithJs k "_hold_seconds_each_side" = false →
      endsWithJs k "_sets" = true →
      (Part001.applyDeltaKey item k v).sets = some JsNum.nan) ∧
    (∀ (item : PrescriptionItem) (k v : String) (r : JsNum),
      parseIntJs v = JsNum.nan → item.name = UtilsTs.exerciseNameOf k →
      endsWithJs k "_reps" = true → item.reps = some r →
      (UtilsTs.applyDeltaKey item k v).reps = some JsNum.nan) ∧
    (∀ (item : PrescriptionItem) (k v : String) (r : JsNum),
      parseIntJs v = JsNum.nan → item.name = UtilsTs.exerciseNameOf k →
      endsWithJs k "_reps" = false → endsWithJs k "_hold_seconds" = true →
      item.hold_seconds = some r →
      (UtilsTs.applyDeltaKey item k v).hold_seconds = some JsNum.nan) := by
  refine ⟨?_, ?_, ?_, ?_, ?_, ?_, ?_⟩
  · intro item k v hv hname h1
    simp [Part001.applyDeltaKey, hname, h1, hv, jsAdd_nan_right]
  · intro item k v hv hname h1 h2
    simp [Part001.applyDeltaKey, hname, h1, h2, hv, jsAdd_nan_right]
  · intro item k v hv hname h1 h2 h3
    simp [Part001.applyDeltaKey, hname, h1, h2, h3, hv, jsAdd_nan_right]
  · intro item k v hv hname h1 h2 h3 h4
    simp [Part001.applyDeltaKey, hname, h1, h2, h3, h4, hv, jsAdd_nan_right]
  · intro item k v hv hname h1 h2 h3 h4 h5
    simp [Part001.applyDeltaKey, hname, h1, h2, h3, h4, h5, hv,
      jsAdd_nan_right]
  · intro item k v r hv hname h1 hr
    simp [UtilsTs.applyDeltaKey, hname, h1, hr, hv, jsAdd_nan_right]
  · intro item k v r hv hname h1 h2 hr
    simp [UtilsTs.applyDeltaKey, hname, h1, h2, hr, hv, jsAdd_nan_right]

/-- C5 witness: the amended theorem applied at concrete malformed deltas —
`("plank_reps", "abc")` on `plank` with 10 reps (both implementations),
and `("plank_hold_seconds", "abc")` on the matching items of each
implementation (an item named `plank_hold` for `part_001`'s
last-underscore split, the `plank` item for `utils.ts`). -/
theorem claim_C5_amended_witness :
    (Part001.applyDeltaKey plankRepsItem "plank_reps" "abc").reps =
      some JsNum.nan ∧
    (Part001.applyDeltaKey
        { name := "plank_hold", hold_seconds := some (.int 30) }
        "plank_hold_seconds" "abc").hold_seconds = some JsNum.nan ∧
    (UtilsTs.applyDeltaKey plankRepsItem "plank_reps" "abc").reps =
      some JsNum.nan ∧
    (UtilsTs.applyDeltaKey plankItem "plank_hold_seconds" "abc").hold_seconds =
      some JsNum.nan :=
  ⟨claim_C5_amended_nan_is_stored.1 plankRepsItem "plank_reps" "abc"
      (by decide) (by decide) (by decide),
   claim_C5_amended_nan_is_stored.2.1
      { name := "plank_hold", hold_seconds := some (.int 30) }
      "plank_hold_seconds" "abc" (by decide) (by decide) (by decide)
      (by decide),
   claim_C5_amended_nan_is_stored.2.2.2.2.2.1 plankRepsItem "plank_reps"
      "abc" (.int 10) (by decide) (by decide) (by decide) rfl,
   claim_C5_amended_nan_is_stored.2.2.2.2.2.2 plankItem "plank_hold_seconds"
      "abc" (.int 30) (by decide) (by decide) (by decide) (by decide) rfl⟩

/-- C6 counterexample: in `utils.ts`, an absent field is *not* treated as
0 — the guard `newItem.reps !== undefined` skips the delta entirely, so a
delta can never create a field.  For the program whose week-1 item is
`{name: "push", sets: 3}` (no `reps`) and whose week-2 delta is
`{"push_reps": "+5"}`, the key matches the item (`utils.ts` extracts
exercise name `"push"`) and ends in `_reps`, yet the result still has no
`reps` field (the claim predicts `reps = 5`). -/
theorem claim_C6_counterexample :
    UtilsTs.exerciseNameOf "push_reps" = pushItem.name ∧
    endsWithJs "push_reps" "_reps" = true ∧
    pushItem.reps = none ∧
    UtilsTs.calculatePrescriptionForWeek progAbsentField 2 =
      [("monday", [pushItem])] := by
  refine ⟨by decide, by decide, rfl, by decide⟩

/-- C6 (amended): in the `part_001` implementation the claim holds — when
a delta key matches an item's exercise name (under that file's
last-underscore split) and carries a recognized suffix (tested in the
source's `endsWith` chain order), the delta is added to the field
identified by the suffix with an absent field treated as 0
(`(field || 0) + delta`), which can create a previously-absent field (as
the final conjunct shows at resolver level).  In `utils.ts` the delta is
skipped when the field is absent. -/
theorem claim_C6_amended_absent_as_zero_part001 :
    (∀ (item : PrescriptionItem) (k v : String),
      item.name = Part001.exerciseNameOf k →
      endsWithJs k "_reps" = true →
      (Part001.applyDeltaKey item k v).reps =
        some (jsAdd (jsOrZero item.reps) (parseIntJs v))) ∧
    (∀ (item : PrescriptionItem) (k v : String),
      item.name = Part001.exerciseNameOf k →
      endsWithJs k "_reps" = false → endsWithJs k "_hold_seconds" = true →
      (Part001.applyDeltaKey item k v).hold_seconds =
        some (jsAdd (jsOrZero item.hold_seconds) (parseIntJs v))) ∧
    (∀ (item : PrescriptionItem) (k v : String),
      item.name = Part001.exerciseNameOf k →
      endsWithJs k "_reps" = false → endsWithJs k "_hold_seconds" = false →
      endsWithJs k "_reps_each_side" = true →
      (Part001.applyDeltaKey item k v).reps_each_side =
        some (jsAdd (jsOrZero item.reps_each_side) (parseIntJs v))) ∧
    (∀ (item : PrescriptionItem) (k v : String),
      item.name = Part001.exerciseNameOf k →
      endsWithJs k "_reps" = false → endsWithJs k "_hold_seconds" = false →
      endsWithJs k "_reps_each_side" = false →
      endsWithJs k "_hold_seconds_each_side" = true →
      (Part001.applyDeltaKey item k v).hold_seconds_each_side =
        some (jsAdd (jsOrZero item.hold_seconds_each_side) (parseIntJs v))) ∧
    (∀ (item : PrescriptionItem) (k v : String),
      item.name = Part001.exerciseNameOf k →
      endsWithJs k "_reps" = false → endsWithJs k "_hold_seconds" = false →
      endsWithJs k "_reps_each_side" = false →
      endsWithJs k "_hold_seconds_each_side" = false →
      endsWithJs k "_sets" = true →
      (Part001.applyDeltaKey item k v).sets =
        some (jsAdd (jsOrZero item.sets) (parseIntJs v))) ∧
    Part001.calculatePrescriptionForWeek progAbsentField 2 =
      [("monday", [{ pushItem with reps := some (.int 5) }])] := by
  refine ⟨?_, ?_, ?_, ?_, ?_, by decide⟩
  · intro item k v hname h1
    simp [Part001.applyDeltaKey, hname, h1]
  · intro item k v hname h1 h2
    simp [Part001.applyDeltaKey, hname, h1, h2]
  · intro item k v hname h1 h2 h3
    simp [Part001.applyDeltaKey, hname, h1, h2, h3]
  · intro item k v hname h1 h2 h3 h4
    simp [Part001.applyDeltaKey, hname, h1, h2, h3, h4]
  · intro item k v hname h1 h2 h3 h4 h5
    simp [Part001.applyDeltaKey, hname, h1, h2, h3, h4, h5]

/-- C6 witness: the first conjunct of the amended theorem applied at the
concrete key `"push_reps"` on the `push` item with no `reps` field —
the field is created as `0 + 5 = 5`. -/
theorem claim_C6_amended_witness :
    (Part001.applyDeltaKey pushItem "push_reps" "+5").reps =
      some (jsAdd (jsOrZero pushItem.reps) (parseIntJs "+5")) :=
  claim_C6_amended_absent_as_zero_part001.1 pushItem "push_reps" "+5"
    (by decide) (by decide)

/-- C7: Formatter precedence.  `formatExerciseTarget` (only present in
`part_001`) tests the fields in the fixed order `reps`,
`reps_each_side`, `hold_seconds`, `hold_seconds_each_side`, rendering
respectively `"<n>"`, `"<n> (each)"`, `"<n>s"`, `"<n>s (each)"`, and
`"0"` when none is defined; an item carrying both `reps` and
`hold_seconds` is formatted from `reps`. -/
theorem claim_C7_formatter_precedence :
    (∀ (ex : PrescriptionItem) (r : JsNum), ex.reps = some r →
      Part001.formatExerciseTarget ex = jsNumToString r) ∧
    (∀ (ex : PrescriptionItem) (r : JsNum), ex.reps = none →
      ex.reps_each_side = some r →
      Part001.formatExerciseTarget ex = jsNumToString r ++ " (each)") ∧
    (∀ (ex : PrescriptionItem) (h : JsNum), ex.reps = none →
      ex.reps_each_side = none → ex.hold_seconds = some h →
      Part001.formatExerciseTarget ex = jsNumToString h ++ "s") ∧
    (∀ (ex : PrescriptionItem) (h : JsNum), ex.reps = none →
      ex.reps_each_side = none → ex.hold_seconds = none →
      ex.hold_seconds_each_side = some h →
      Part001.formatExerciseTarget ex = jsNumToString h ++ "s (each)") ∧
    (∀ ex : PrescriptionItem, ex.reps = none → ex.reps_each_side = none →
      ex.hold_seconds = none → ex.hold_seconds_each_side = none →
      Part001.formatExerciseTarget ex = "0") ∧
    Part001.formatExerciseTarget { name := "x", reps := some (.int 12) } = "12" ∧
    Part001.formatExerciseTarget
      { name := "x", hold_seconds_each_side := some (.int 20) } = "20s (each)" ∧
    Part001.formatExerciseTarget { name := "x" } = "0" ∧
    Part001.formatExerciseTarget
      { name := "x", reps := some (.int 12), hold_seconds := some (.int 30) } =
        "12" := by
  refine ⟨?_, ?_, ?_, ?_, ?_, by decide, by decide, by decide, by decide⟩
  · intro ex r h1
    simp [Part001.formatExerciseTarget, h1]
  · intro ex r h1 h2
    simp [Part001.formatExerciseTarget, h1, h2]
  · intro ex r h1 h2 h3
    simp [Part001.formatExerciseTarget, h1, h2, h3]
  · intro ex r h1 h2 h3 h4
    simp [Part001.formatExerciseTarget, h1, h2, h3, h4]
  · intro ex h1 h2 h3 h4
    simp [Part001.formatExerciseTarget, h1, h2, h3, h4]

/-- C7 witness: the first conjunct applied to an item carrying both
`reps` and `hold_seconds` — `reps` wins. -/
theorem claim_C7_witness :
    Part001.formatExerciseTarget
      { name := "y", reps := some (.int 7), hold_seconds := some (.int 9) } =
      jsNumToString (.int 7) :=
  claim_C7_formatter_precedence.1
    { name := "y", reps := some (.int 7), hold_seconds := some (.int 9) }
    (.int 7) rfl

/-- In a singleton week-1 target list, no week other than 1 matches. -/
theorem singleton_week1_find_none (P : DayMap)
    (d : Option (List (String × String))) (w : Nat) (h : w ≠ 1) :
    ([{ week := 1, day_prescription := some P,
        delta_from_previous_week := d }] : List WeekPrescription).find?
      (fun t => t.week == w) = none := by
  have hb : ((1 : Nat) == w) = false := by
    simp only [beq_eq_false_iff_ne, ne_eq]
    omega
  simp [List.find?, hb]

/-- C3: Snapshot reset.  When the entry located for a week has
`day_prescription` set, both resolvers replace the entire working
prescription with that snapshot, discarding everything accumulated
before; consequently a program whose only `weekly_targets` entry is
`{week: 1, day_prescription: P}` resolves to `P` for every target week
`W ≥ 1`, independent of `W`. -/
theorem claim_C3_snapshot_reset :
    (∀ (T : List WeekPrescription) (cur : DayMap) (w : Nat)
        (wd : WeekPrescription) (dp : DayMap),
      T.find? (fun t => t.week == w) = some wd →
      wd.day_prescription = some dp →
      UtilsTs.stepWeek T cur w = dp ∧ Part001.stepWeek T cur w = dp) ∧
    (∀ (nm : String) (dw : Nat) (P : DayMap) (W : Nat), 1 ≤ W →
      UtilsTs.calculatePrescriptionForWeek
        ⟨nm, dw, [{ week := 1, day_prescription := some P }]⟩ W = P ∧
      Part001.calculatePrescriptionForWeek
        ⟨nm, dw, [{ week := 1, day_prescription := some P }]⟩ W = P) := by
  constructor
  · intro T cur w wd dp h hdp
    exact ⟨utils_stepWeek_snapshot T cur w wd dp h hdp,
           part001_stepWeek_snapshot T cur w wd dp h hdp⟩
  · intro nm dw P W hW
    induction W, hW using Nat.le_induction with
    | base =>
      constructor
      · rw [utils_calc_succ]
        exact utils_stepWeek_snapshot _ _ _
          { week := 1, day_prescription := some P } P (by simp [List.find?]) rfl
      · rw [part001_calc_succ]
        exact part001_stepWeek_snapshot _ _ _
          { week := 1, day_prescription := some P } P (by simp [List.find?]) rfl
    | succ n hn ih =>
      have hfind := singleton_week1_find_none P none (n + 1) (by omega)
      constructor
      · rw [utils_calc_succ]
        rw [utils_stepWeek_absent _ _ _ hfind]
        exact ih.1
      · rw [part001_calc_succ]
        rw [part001_stepWeek_absent _ _ _ hfind]
        exact ih.2

/-- C3 witness: the reset theorem applied at `W = 3` with the concrete
snapshot `monday ↦ [plank]`. -/
theorem claim_C3_witness :
    UtilsTs.calculatePrescriptionForWeek
      ⟨"", 0, [{ week := 1, day_prescription := some [("monday", [plankItem])] }]⟩
      3 = [("monday", [plankItem])] ∧
    Part001.calculatePrescriptionForWeek
      ⟨"", 0, [{ week := 1, day_prescription := some [("monday", [plankItem])] }]⟩
      3 = [("monday", [plankItem])] :=
  claim_C3_snapshot_reset.2 "" 0 [("monday", [plankItem])] 3 (by decide)

/-- The `utils.ts` week loop over any week list equals the loop over only
the weeks that have a matching entry: absent weeks contribute nothing. -/
theorem utils_foldl_filter_present (T : List WeekPrescription) :
    ∀ (ws : List Nat) (cur : DayMap),
      ws.foldl (UtilsTs.stepWeek T) cur =
        (ws.filter (fun w => (T.find? (fun t => t.week == w)).isSome)).foldl
          (UtilsTs.stepWeek T) cur := by
  intro ws
  induction ws with
  | nil => intro cur; rfl
  | cons w ws ih =>
    intro cur
    by_cases h : (T.find? (fun t => t.week == w)).isSome = true
    · rw [List.foldl_cons, List.filter_cons, if_pos h, List.foldl_cons, ih]
    · have hn : T.find? (fun t => t.week == w) = none :=
        Option.not_isSome_iff_eq_none.mp (by simpa using h)
      rw [List.foldl_cons, List.filter_cons, if_neg h,
        utils_stepWeek_absent T cur w hn, ih]

/-- The `part_001` week loop over any week list equals the loop over only
the weeks that have a matching entry: absent weeks contribute nothing. -/
theorem part001_foldl_filter_present (T : List WeekPrescription) :
    ∀ (ws : List Nat) (cur : DayMap),
      ws.foldl (Part001.stepWeek T) cur =
        (ws.filter (fun w => (T.find? (fun t => t.week == w)).isSome)).foldl
          (Part001.stepWeek T) cur := by
  intro ws
  induction ws with
  | nil => intro cur; rfl
  | cons w ws ih =>
    intro cur
    by_cases h : (T.find? (fun t => t.week == w)).isSome = true
    · rw [List.foldl_cons, List.filter_cons, if_pos h, List.foldl_cons, ih]
    · have hn : T.find? (fun t => t.week == w) = none :=
        Option.not_isSome_iff_eq_none.mp (by simpa using h)
      rw [List.foldl_cons, List.filter_cons, if_neg h,
        part001_stepWeek_absent T cur w hn, ih]

/-- C9: Gap tolerance.  For every program and target week, both resolvers
compute the same result as the fold over only those weeks of `1..W` that
have a matching `weekly_targets` entry, applied in ascending order — a
week number with no matching entry contributes no change, so a sequence
with a gap behaves exactly like the sequence with the gap collapsed to
its present weeks. -/
theorem claim_C9_gap_tolerance (p : TrainingProgram) (W : Nat) :
    UtilsTs.calculatePrescriptionForWeek p W =
      (((List.range W).map (· + 1)).filter
        (fun w => (p.weekly_targets.find? (fun t => t.week == w)).isSome)).foldl
        (UtilsTs.stepWeek p.weekly_targets) [] ∧
    Part001.calculatePrescriptionForWeek p W =
      (((List.range W).map (· + 1)).filter
        (fun w => (p.weekly_targets.find? (fun t => t.week == w)).isSome)).foldl
        (Part001.stepWeek p.weekly_targets) [] :=
  ⟨utils_foldl_filter_present p.weekly_targets _ [],
   part001_foldl_filter_present p.weekly_targets _ []⟩

/-- When every entry of `U` duplicates a week already matched in `T`,
appending `U` never changes what `find` locates. -/
theorem find?_append_covered (T U : List WeekPrescription)
    (h : ∀ e ∈ U, (T.find? (fun t => t.week == e.week)).isSome = true)
    (w : Nat) :
    (T ++ U).find? (fun t => t.week == w) =
      T.find? (fun t => t.week == w) := by
  rw [List.find?_append]
  cases hT : T.find? (fun t => t.week == w) with
  | some wd => rfl
  | none =>
    cases hU : U.find? (fun t => t.week == w) with
    | none => rfl
    | some e =>
      exfalso
      have he : e ∈ U := List.mem_of_find?_eq_some hU
      have hw : e.week = w := by simpa using List.find?_some hU
      have := h e he
      rw [hw, hT] at this
      simp at this

/-- Two target lists on which `find` agrees drive the `utils.ts` week
loop identically. -/
theorem utils_foldl_congr_find (T₁ T₂ : List WeekPrescription)
    (h : ∀ w, T₁.find? (fun t => t.week == w) =
      T₂.find? (fun t => t.week == w)) :
    ∀ (ws : List Nat) (cur : DayMap),
      ws.foldl (UtilsTs.stepWeek T₁) cur = ws.foldl (UtilsTs.stepWeek T₂) cur := by
  have hstep : UtilsTs.stepWeek T₁ = UtilsTs.stepWeek T₂ := by
    funext cur w
    unfold UtilsTs.stepWeek
    rw [h w]
  intro ws cur
  rw [hstep]

/-- Two target lists on which `find` agrees drive the `part_001` week
loop identically. -/
theorem part001_foldl_congr_find (T₁ T₂ : List WeekPrescription)
    (h : ∀ w, T₁.find? (fun t => t.week == w) =
      T₂.find? (fun t => t.week == w)) :
    ∀ (ws : List Nat) (cur : DayMap),
      ws.foldl (Part001.stepWeek T₁) cur =
        ws.foldl (Part001.stepWeek T₂) cur := by
  have hstep : Part001.stepWeek T₁ = Part001.stepWeek T₂ := by
    funext cur w
    unfold Part001.stepWeek
    rw [h w]
  intro ws cur
  rw [hstep]

/-- C10: Duplicate week entries.  For each week `w`, both resolvers
locate the first-matching entry in storage order (`Array.prototype.find`)
and apply only it: appending any entries whose weeks already have a
matching entry earlier in the list leaves the result of both resolvers
unchanged, for every target week. -/
theorem claim_C10_first_match_wins (nm : String) (dw : Nat)
    (T U : List WeekPrescription) (W : Nat)
    (h : ∀ e ∈ U, (T.find? (fun t => t.week == e.week)).isSome = true) :
    UtilsTs.calculatePrescriptionForWeek ⟨nm, dw, T ++ U⟩ W =
      UtilsTs.calculatePrescriptionForWeek ⟨nm, dw, T⟩ W ∧
    Part001.calculatePrescriptionForWeek ⟨nm, dw, T ++ U⟩ W =
      Part001.calculatePrescriptionForWeek ⟨nm, dw, T⟩ W :=
  ⟨utils_foldl_congr_find (T ++ U) T (find?_append_covered T U h) _ [],
   part001_foldl_congr_find (T ++ U) T (find?_append_covered T U h) _ []⟩

/-- C10 witness: a second week-1 entry (carrying a different snapshot)
appended after an existing week-1 entry is ignored by both resolvers. -/
theorem claim_C10_witness :
    UtilsTs.calculatePrescriptionForWeek ⟨"", 0, dupTargetsA ++ dupTargetsB⟩ 1 =
      UtilsTs.calculatePrescriptionForWeek ⟨"", 0, dupTargetsA⟩ 1 ∧
    Part001.calculatePrescriptionForWeek ⟨"", 0, dupTargetsA ++ dupTargetsB⟩ 1 =
      Part001.calculatePrescriptionForWeek ⟨"", 0, dupTargetsA⟩ 1 :=
  claim_C10_first_match_wins "" 0 dupTargetsA dupTargetsB 1 (by decide)

/-- C4 counterexample: the two implementations do *not* compute the same
function.  On the delta-accumulation example program, at target week 2
`utils.ts` applies the `plank_hold_seconds` delta (first-underscore split
gives exercise name `plank`) while `part_001` does not (last-underscore
split gives `plank_hold`), so the returned mappings differ. -/
theorem claim_C4_counterexample :
    UtilsTs.calculatePrescriptionForWeek progPlank 2 ≠
      Part001.calculatePrescriptionForWeek progPlank 2 := by
  decide

/-- C4 (amended): the two implementations agree on every program none of
whose `weekly_targets` entries carries `delta_from_previous_week` — the
week-location and snapshot-reset logic is identical in both files, and
the implementations differ only inside the delta branch. -/
theorem claim_C4_amended_snapshot_only_agreement
    (p : TrainingProgram) (W : Nat)
    (h : ∀ e ∈ p.weekly_targets, e.delta_from_previous_week = none) :
    UtilsTs.calculatePrescriptionForWeek p W =
      Part001.calculatePrescriptionForWeek p W := by
  induction W with
  | zero => rfl
  | succ n ih =>
    rw [utils_calc_succ, part001_calc_succ, ih]
    cases hf : p.weekly_targets.find? (fun t => t.week == n + 1) with
    | none =>
      rw [utils_stepWeek_absent _ _ _ hf, part001_stepWeek_absent _ _ _ hf]
    | some wd =>
      cases hdp : wd.day_prescription with
      | some dp =>
        rw [utils_stepWeek_snapshot _ _ _ _ _ hf hdp,
          part001_stepWeek_snapshot _ _ _ _ _ hf hdp]
      | none =>
        have hd : wd.delta_from_previous_week = none :=
          h wd (List.mem_of_find?_eq_some hf)
        simp [UtilsTs.stepWeek, Part001.stepWeek, hf, hdp, hd]

/-- C4 witness: the agreement theorem applied to the concrete
snapshot-only program at week 2. -/
theorem claim_C4_amended_witness :
    UtilsTs.calculatePrescriptionForWeek progSnapshotOnly 2 =
      Part001.calculatePrescriptionForWeek progSnapshotOnly 2 :=
  claim_C4_amended_snapshot_only_agreement progSnapshotOnly 2 (by decide)

/-- `StoreExtends` is reflexive. -/
theorem storeExtends_refl (σ : Heap.Store) : Heap.StoreExtends σ σ :=
  ⟨le_refl _, fun _ _ => rfl⟩

/-- `StoreExtends` is transitive. -/
theorem storeExtends_trans {σ₁ σ₂ σ₃ : Heap.Store}
    (h : Heap.StoreExtends σ₁ σ₂) (h' : Heap.StoreExtends σ₂ σ₃) :
    Heap.StoreExtends σ₁ σ₃ :=
  ⟨le_trans h.1 h'.1, fun i hi => by
    rw [h'.2 i (lt_of_lt_of_le hi h.1), h.2 i hi]⟩

/-- Reads of already-allocated objects are unaffected by later allocation
and by writes to fresh objects. -/
theorem readItem_stable {σ σ' : Heap.Store} (h : Heap.StoreExtends σ σ')
    {a : Nat} (ha : a < σ.length) :
    Heap.readItem σ' a = Heap.readItem σ a := by
  unfold Heap.readItem
  rw [List.getD_eq_getElem?_getD, List.getD_eq_getElem?_getD, h.2 a ha]

/-- Allocation extends the store.  -/
theorem storeExtends_alloc (σ : Heap.Store) (it : PrescriptionItem) :
    Heap.StoreExtends σ (Heap.alloc σ it).1 := by
  refine ⟨by simp [Heap.alloc], fun i hi => ?_⟩
  simp only [Heap.alloc]
  rw [List.getElem?_append_left hi]

/-- The freshly-allocated address holds the allocated value. -/
theorem readItem_alloc (σ : Heap.Store) (it : PrescriptionItem) :
    Heap.readItem (Heap.alloc σ it).1 (Heap.alloc σ it).2 = it := by
  simp [Heap.alloc, Heap.readItem, List.getD_eq_getElem?_getD]

/-- The in-place mutation loop over the delta entries (the inner
`for (const deltaKey in deltas)` acting on `newItem`): the store keeps its
length, every other address is untouched, and the mutated object ends up
holding the value-level delta fold of its initial value. -/
theorem heap_writeFold_spec
    (upd : PrescriptionItem → String → String → PrescriptionItem)
    (a : Nat) (deltas : List (String × String)) :
    ∀ (σ : Heap.Store), a < σ.length →
      (deltas.foldl (fun σc kv =>
          Heap.writeItem σc a
            (upd (Heap.readItem σc a) kv.1 kv.2)) σ).length
        = σ.length ∧
      (∀ i, a ≠ i →
        (deltas.foldl (fun σc kv =>
          Heap.writeItem σc a
            (upd (Heap.readItem σc a) kv.1 kv.2)) σ)[i]?
          = σ[i]?) ∧
      Heap.readItem (deltas.foldl (fun σc kv =>
          Heap.writeItem σc a
            (upd (Heap.readItem σc a) kv.1 kv.2)) σ) a
        = applyDeltasG upd deltas (Heap.readItem σ a) := by
  induction deltas with
  | nil => intro σ ha; exact ⟨rfl, fun i _ => rfl, rfl⟩
  | cons kv rest ih =>
    intro σ ha
    simp only [List.foldl_cons]
    have hread1 : Heap.readItem
        (Heap.writeItem σ a (upd (Heap.readItem σ a) kv.1 kv.2)) a
        = upd (Heap.readItem σ a) kv.1 kv.2 := by
      simp [Heap.writeItem, Heap.readItem, List.getD_eq_getElem?_getD,
        List.getElem?_set_eq_of_lt _ ha]
    obtain ⟨hl, hframe, hr⟩ := ih
      (Heap.writeItem σ a (upd (Heap.readItem σ a) kv.1 kv.2))
      (by simpa [Heap.writeItem] using ha)
    refine ⟨?_, ?_, ?_⟩
    · rw [hl]; simp [Heap.writeItem]
    · intro i hi
      rw [hframe i hi, Heap.writeItem, List.getElem?_set_ne hi]
    · rw [hr, hread1]
      rfl

/-- `updateItemH` (spread-copy then per-key mutations) extends the store,
returns an in-bounds fresh address, and that object holds the value-level
`applyDeltas` of the original item. -/
theorem updateItemH_spec
    (upd : PrescriptionItem → String → String → PrescriptionItem)
    (deltas : List (String × String)) (σ : Heap.Store)
    (a : Nat) :
    Heap.StoreExtends σ (Heap.updateItemH upd deltas σ a).1 ∧
    (Heap.updateItemH upd deltas σ a).2
      < (Heap.updateItemH upd deltas σ a).1.length ∧
    Heap.readItem (Heap.updateItemH upd deltas σ a).1
        (Heap.updateItemH upd deltas σ a).2
      = applyDeltasG upd deltas (Heap.readItem σ a) := by
  have hlt : σ.length < (σ ++ [Heap.readItem σ a]).length := by simp
  obtain ⟨hl, hframe, hr⟩ :=
    heap_writeFold_spec upd σ.length deltas (σ ++ [Heap.readItem σ a]) hlt
  simp only [Heap.updateItemH, Heap.alloc]
  refine ⟨⟨?_, ?_⟩, ?_, ?_⟩
  · rw [hl]; simp
  · intro i hi
    rw [hframe i (Nat.ne_of_gt hi), List.getElem?_append_left hi]
  · rw [hl]; simp
  · rw [hr]
    have : Heap.readItem (σ ++ [Heap.readItem σ a]) σ.length = Heap.readItem σ a := by
      simp [Heap.readItem, List.getD_eq_getElem?_getD]
    rw [this]

/-- `updateItemsH` maps the per-item update over a list of valid
addresses: the store is extended, all returned addresses are in bounds,
and dereferencing them yields the value-level per-item updates. -/
theorem updateItemsH_spec
    (upd : PrescriptionItem → String → String → PrescriptionItem)
    (deltas : List (String × String)) :
    ∀ (as : List Nat) (σ : Heap.Store), (∀ a ∈ as, a < σ.length) →
      Heap.StoreExtends σ (Heap.updateItemsH upd deltas σ as).1 ∧
      (∀ a' ∈ (Heap.updateItemsH upd deltas σ as).2,
        a' < (Heap.updateItemsH upd deltas σ as).1.length) ∧
      (Heap.updateItemsH upd deltas σ as).2.map
          (Heap.readItem (Heap.updateItemsH upd deltas σ as).1)
        = as.map (fun a => applyDeltasG upd deltas (Heap.readItem σ a)) := by
  intro as
  induction as with
  | nil =>
    intro σ _
    exact ⟨storeExtends_refl σ, by simp [Heap.updateItemsH], by
      simp [Heap.updateItemsH]⟩
  | cons a rest ih =>
    intro σ hv
    obtain ⟨he1, ha1, hr1⟩ := updateItemH_spec upd deltas σ a
    obtain ⟨he2, hv2, hr2⟩ := ih (Heap.updateItemH upd deltas σ a).1
      (fun b hb => lt_of_lt_of_le (hv b (List.mem_cons_of_mem a hb)) he1.1)
    simp only [Heap.updateItemsH]
    refine ⟨storeExtends_trans he1 he2, ?_, ?_⟩
    · intro a' ha'
      rcases List.mem_cons.mp ha' with h | h
      · subst h; exact lt_of_lt_of_le ha1 he2.1
      · exact hv2 a' h
    · simp only [List.map_cons]
      rw [readItem_stable he2 ha1, hr1, hr2]
      congr 1
      apply List.map_congr_left
      intro b hb
      rw [readItem_stable he1 (hv b (List.mem_cons_of_mem a hb))]

/-- Dereferencing a valid day map is unaffected by store extension. -/
theorem derefDayMap_stable {σ σ' : Heap.Store} {h : Heap.HDayMap}
    (hv : ∀ e ∈ h, ∀ a ∈ e.2, a < σ.length)
    (he : Heap.StoreExtends σ σ') :
    Heap.derefDayMap σ' h = Heap.derefDayMap σ h := by
  unfold Heap.derefDayMap
  apply List.map_congr_left
  intro e heMem
  congr 1
  apply List.map_congr_left
  intro a ha
  exact readItem_stable he (hv e heMem a ha)

/-- The JSON-round-trip copy of a list of valid items extends the store,
yields in-bounds addresses, and preserves the dereferenced values. -/
theorem copyItems_spec :
    ∀ (as : List Nat) (σ : Heap.Store), (∀ a ∈ as, a < σ.length) →
      Heap.StoreExtends σ (Heap.copyItems σ as).1 ∧
      (∀ a' ∈ (Heap.copyItems σ as).2, a' < (Heap.copyItems σ as).1.length) ∧
      (Heap.copyItems σ as).2.map (Heap.readItem (Heap.copyItems σ as).1)
        = as.map (Heap.readItem σ) := by
  intro as
  induction as with
  | nil =>
    intro σ _
    exact ⟨storeExtends_refl σ, by simp [Heap.copyItems], by
      simp [Heap.copyItems]⟩
  | cons a rest ih =>
    intro σ hv
    have he1 : Heap.StoreExtends σ (Heap.alloc σ (Heap.readItem σ a)).1 :=
      storeExtends_alloc σ (Heap.readItem σ a)
    have ha1 : (Heap.alloc σ (Heap.readItem σ a)).2
        < (Heap.alloc σ (Heap.readItem σ a)).1.length := by
      simp [Heap.alloc]
    obtain ⟨he2, hv2, hr2⟩ := ih (Heap.alloc σ (Heap.readItem σ a)).1
      (fun b hb =>
        lt_of_lt_of_le (hv b (List.mem_cons_of_mem a hb)) he1.1)
    simp only [Heap.copyItems]
    refine ⟨storeExtends_trans he1 he2, ?_, ?_⟩
    · intro a' ha'
      rcases List.mem_cons.mp ha' with h | h
      · subst h; exact lt_of_lt_of_le ha1 he2.1
      · exact hv2 a' h
    · simp only [List.map_cons]
      rw [readItem_stable he2 ha1, readItem_alloc, hr2]
      congr 1
      apply List.map_congr_left
      intro b hb
      rw [readItem_stable he1 (hv b (List.mem_cons_of_mem a hb))]

/-- The JSON-round-trip copy of a valid snapshot extends the store, yields
a valid day map, and preserves the dereferenced day map. -/
theorem deepCopyDayMap_spec :
    ∀ (dp : Heap.HDayMap) (σ : Heap.Store),
      (∀ e ∈ dp, ∀ a ∈ e.2, a < σ.length) →
      Heap.StoreExtends σ (Heap.deepCopyDayMap σ dp).1 ∧
      (∀ e ∈ (Heap.deepCopyDayMap σ dp).2, ∀ a ∈ e.2,
        a < (Heap.deepCopyDayMap σ dp).1.length) ∧
      Heap.derefDayMap (Heap.deepCopyDayMap σ dp).1 (Heap.deepCopyDayMap σ dp).2
        = Heap.derefDayMap σ dp := by
  intro dp
  induction dp with
  | nil =>
    intro σ _
    exact ⟨storeExtends_refl σ, by simp [Heap.deepCopyDayMap], by
      simp [Heap.deepCopyDayMap, Heap.derefDayMap]⟩
  | cons e rest ih =>
    intro σ hv
    obtain ⟨he1, hv1, hr1⟩ := copyItems_spec e.2 σ (hv e (List.mem_cons_self e rest))
    obtain ⟨he2, hv2, hr2⟩ := ih (Heap.copyItems σ e.2).1
      (fun e' he' a ha =>
        lt_of_lt_of_le (hv e' (List.mem_cons_of_mem e he') a ha) he1.1)
    have hcons : Heap.deepCopyDayMap σ (e :: rest)
        = ((Heap.deepCopyDayMap (Heap.copyItems σ e.2).1 rest).1,
           (e.1, (Heap.copyItems σ e.2).2)
             :: (Heap.deepCopyDayMap (Heap.copyItems σ e.2).1 rest).2) := by
      cases e
      rfl
    rw [hcons]
    refine ⟨storeExtends_trans he1 he2, ?_, ?_⟩
    · intro e' he' a ha
      rcases List.mem_cons.mp he' with h | h
      · subst h
        exact lt_of_lt_of_le (hv1 a ha) he2.1
      · exact hv2 e' h a ha
    · simp only [Heap.derefDayMap, List.map_cons]
      have hitems : (Heap.copyItems σ e.2).2.map
          (Heap.readItem (Heap.deepCopyDayMap (Heap.copyItems σ e.2).1 rest).1)
          = e.2.map (Heap.readItem σ) := by
        rw [← hr1]
        apply List.map_congr_left
        intro a ha
        exact readItem_stable he2 (hv1 a ha)
      rw [hitems]
      have htail := hr2
      simp only [Heap.derefDayMap] at htail
      rw [htail]
      have : rest.map (fun e' => (e'.1, e'.2.map (Heap.readItem (Heap.copyItems σ e.2).1)))
          = rest.map (fun e' => (e'.1, e'.2.map (Heap.readItem σ))) := by
        apply List.map_congr_left
        intro e' he'
        congr 1
        apply List.map_congr_left
        intro a ha
        exact readItem_stable he1 (hv e' (List.mem_cons_of_mem e he') a ha)
      rw [this]

/-- The heap-level delta branch extends the store, yields a valid day map,
and corresponds to the value-level delta branch of `part_001`. -/
theorem applyDeltasToAllDaysH_spec
    (upd : PrescriptionItem → String → String → PrescriptionItem)
    (deltas : List (String × String)) :
    ∀ (cur : Heap.HDayMap) (σ : Heap.Store),
      (∀ e ∈ cur, ∀ a ∈ e.2, a < σ.length) →
      Heap.StoreExtends σ (Heap.applyDeltasToAllDaysH upd deltas σ cur).1 ∧
      (∀ e ∈ (Heap.applyDeltasToAllDaysH upd deltas σ cur).2, ∀ a ∈ e.2,
        a < (Heap.applyDeltasToAllDaysH upd deltas σ cur).1.length) ∧
      Heap.derefDayMap (Heap.applyDeltasToAllDaysH upd deltas σ cur).1
          (Heap.applyDeltasToAllDaysH upd deltas σ cur).2
        = applyDeltasToAllDaysG upd deltas (Heap.derefDayMap σ cur) := by
  intro cur
  induction cur with
  | nil =>
    intro σ _
    exact ⟨storeExtends_refl σ, by simp [Heap.applyDeltasToAllDaysH], by
      simp [Heap.applyDeltasToAllDaysH, Heap.derefDayMap,
        applyDeltasToAllDaysG]⟩
  | cons e rest ih =>
    intro σ hv
    obtain ⟨he1, hv1, hr1⟩ :=
      updateItemsH_spec upd deltas e.2 σ (hv e (List.mem_cons_self e rest))
    obtain ⟨he2, hv2, hr2⟩ := ih (Heap.updateItemsH upd deltas σ e.2).1
      (fun e' he' a ha =>
        lt_of_lt_of_le (hv e' (List.mem_cons_of_mem e he') a ha) he1.1)
    have hcons : Heap.applyDeltasToAllDaysH upd deltas σ (e :: rest)
        = ((Heap.applyDeltasToAllDaysH upd deltas
              (Heap.updateItemsH upd deltas σ e.2).1 rest).1,
           (e.1, (Heap.updateItemsH upd deltas σ e.2).2)
             :: (Heap.applyDeltasToAllDaysH upd deltas
                  (Heap.updateItemsH upd deltas σ e.2).1 rest).2) := by
      cases e
      rfl
    rw [hcons]
    refine ⟨storeExtends_trans he1 he2, ?_, ?_⟩
    · intro e' he' a ha
      rcases List.mem_cons.mp he' with h | h
      · subst h
        exact lt_of_lt_of_le (hv1 a ha) he2.1
      · exact hv2 e' h a ha
    · simp only [Heap.derefDayMap, List.map_cons,
        applyDeltasToAllDaysG]
      have hitems : (Heap.updateItemsH upd deltas σ e.2).2.map
          (Heap.readItem (Heap.applyDeltasToAllDaysH upd deltas
            (Heap.updateItemsH upd deltas σ e.2).1 rest).1)
          = e.2.map (fun a => applyDeltasG upd deltas (Heap.readItem σ a)) := by
        rw [← hr1]
        apply List.map_congr_left
        intro a ha
        exact readItem_stable he2 (hv1 a ha)
      rw [hitems, List.map_map]
      have htail := hr2
      simp only [Heap.derefDayMap, applyDeltasToAllDaysG] at htail
      rw [htail]
      have : rest.map (fun e' =>
            (e'.1, e'.2.map (Heap.readItem (Heap.updateItemsH upd deltas σ e.2).1)))
          = rest.map (fun e' => (e'.1, e'.2.map (Heap.readItem σ))) := by
        apply List.map_congr_left
        intro e' he'
        congr 1
        apply List.map_congr_left
        intro a ha
        exact readItem_stable he1 (hv e' (List.mem_cons_of_mem e he') a ha)
      rw [this]
      rfl

/-- `find` over the dereferenced program equals the dereference of `find`
over the heap program (the `week` field is unaffected by dereferencing). -/
theorem find?_derefProgram (σ₀ : Heap.Store) (p : Heap.HTrainingProgram)
    (w : Nat) :
    (Heap.derefProgram σ₀ p).weekly_targets.find? (fun t => t.week == w)
      = (p.weekly_targets.find? (fun t => t.week == w)).map
          (Heap.derefWeek σ₀) := by
  show (p.weekly_targets.map (Heap.derefWeek σ₀)).find? (fun t => t.week == w)
      = _
  rw [List.find?_map]
  rfl

/-- One heap-level week iteration extends the store, keeps the working
prescription valid, and corresponds to the value-level week iteration on
the dereferenced program. -/
theorem stepWeekH_spec
    (upd : PrescriptionItem → String → String → PrescriptionItem)
    (p : Heap.HTrainingProgram) (σ₀ : Heap.Store)
    (hp : ∀ wd ∈ p.weekly_targets, ∀ dp, wd.day_prescription = some dp →
      ∀ e ∈ dp, ∀ a ∈ e.2, a < σ₀.length)
    (σ : Heap.Store) (cur : Heap.HDayMap) (w : Nat)
    (he : Heap.StoreExtends σ₀ σ)
    (hc : ∀ e ∈ cur, ∀ a ∈ e.2, a < σ.length) :
    Heap.StoreExtends σ (Heap.stepWeekH upd p.weekly_targets (σ, cur) w).1 ∧
    (∀ e ∈ (Heap.stepWeekH upd p.weekly_targets (σ, cur) w).2, ∀ a ∈ e.2,
      a < (Heap.stepWeekH upd p.weekly_targets (σ, cur) w).1.length) ∧
    Heap.derefDayMap (Heap.stepWeekH upd p.weekly_targets (σ, cur) w).1
        (Heap.stepWeekH upd p.weekly_targets (σ, cur) w).2
      = stepWeekG upd (Heap.derefProgram σ₀ p).weekly_targets
          (Heap.derefDayMap σ cur) w := by
  have hfind := find?_derefProgram σ₀ p w
  cases hfw : p.weekly_targets.find? (fun t => t.week == w) with
  | none =>
    have hstep : Heap.stepWeekH upd p.weekly_targets (σ, cur) w = (σ, cur) := by
      simp [Heap.stepWeekH, hfw]
    rw [hstep]
    refine ⟨storeExtends_refl σ, hc, ?_⟩
    rw [hfw] at hfind
    simp [stepWeekG, hfind]
  | some wd =>
    rw [hfw] at hfind
    have hmem := List.mem_of_find?_eq_some hfw
    cases hdp : wd.day_prescription with
    | some dp =>
      have hdpv : ∀ e ∈ dp, ∀ a ∈ e.2, a < σ.length :=
        fun e heM a ha => lt_of_lt_of_le (hp wd hmem dp hdp e heM a ha) he.1
      obtain ⟨hex, hval, hder⟩ := deepCopyDayMap_spec dp σ hdpv
      have hstep : Heap.stepWeekH upd p.weekly_targets (σ, cur) w
          = Heap.deepCopyDayMap σ dp := by
        simp [Heap.stepWeekH, hfw, hdp]
      rw [hstep]
      refine ⟨hex, hval, ?_⟩
      rw [hder, derefDayMap_stable (hp wd hmem dp hdp) he]
      simp [stepWeekG, hfind, Heap.derefWeek, hdp]
    | none =>
      cases hdelta : wd.delta_from_previous_week with
      | some deltas =>
        obtain ⟨hex, hval, hder⟩ := applyDeltasToAllDaysH_spec upd deltas cur σ hc
        have hstep : Heap.stepWeekH upd p.weekly_targets (σ, cur) w
            = Heap.applyDeltasToAllDaysH upd deltas σ cur := by
          simp [Heap.stepWeekH, hfw, hdp, hdelta]
        rw [hstep]
        refine ⟨hex, hval, ?_⟩
        rw [hder]
        simp [stepWeekG, hfind, Heap.derefWeek, hdp, hdelta]
      | none =>
        have hstep : Heap.stepWeekH upd p.weekly_targets (σ, cur) w = (σ, cur) := by
          simp [Heap.stepWeekH, hfw, hdp, hdelta]
        rw [hstep]
        refine ⟨storeExtends_refl σ, hc, ?_⟩
        simp [stepWeekG, hfind, Heap.derefWeek, hdp, hdelta]

/-- The heap-level week loop extends the store, keeps the working
prescription valid, and corresponds to the value-level week loop on the
dereferenced program. -/
theorem heap_fold_spec
    (upd : PrescriptionItem → String → String → PrescriptionItem)
    (p : Heap.HTrainingProgram) (σ₀ : Heap.Store)
    (hp : ∀ wd ∈ p.weekly_targets, ∀ dp, wd.day_prescription = some dp →
      ∀ e ∈ dp, ∀ a ∈ e.2, a < σ₀.length) :
    ∀ (ws : List Nat) (σ : Heap.Store) (cur : Heap.HDayMap),
      Heap.StoreExtends σ₀ σ → (∀ e ∈ cur, ∀ a ∈ e.2, a < σ.length) →
      Heap.StoreExtends σ
        (ws.foldl (Heap.stepWeekH upd p.weekly_targets) (σ, cur)).1 ∧
      (∀ e ∈ (ws.foldl (Heap.stepWeekH upd p.weekly_targets) (σ, cur)).2,
        ∀ a ∈ e.2,
        a < (ws.foldl (Heap.stepWeekH upd p.weekly_targets) (σ, cur)).1.length) ∧
      Heap.derefDayMap
          (ws.foldl (Heap.stepWeekH upd p.weekly_targets) (σ, cur)).1
          (ws.foldl (Heap.stepWeekH upd p.weekly_targets) (σ, cur)).2
        = ws.foldl (stepWeekG upd (Heap.derefProgram σ₀ p).weekly_targets)
            (Heap.derefDayMap σ cur) := by
  intro ws
  induction ws with
  | nil => intro σ cur he hc; exact ⟨storeExtends_refl σ, hc, rfl⟩
  | cons w ws ih =>
    intro σ cur he hc
    obtain ⟨he1, hv1, hr1⟩ := stepWeekH_spec upd p σ₀ hp σ cur w he hc
    obtain ⟨he2, hv2, hr2⟩ :=
      ih (Heap.stepWeekH upd p.weekly_targets (σ, cur) w).1
        (Heap.stepWeekH upd p.weekly_targets (σ, cur) w).2
        (storeExtends_trans he he1) hv1
    simp only [List.foldl_cons]
    refine ⟨storeExtends_trans he1 he2, hv2, ?_⟩
    rw [hr2, hr1]

/-- The heap-level resolver extends the store and its dereferenced result
equals the value-level resolver applied to the dereferenced program. -/
theorem heap_calc_spec
    (upd : PrescriptionItem → String → String → PrescriptionItem)
    (σ : Heap.Store) (p : Heap.HTrainingProgram)
    (hp : ∀ wd ∈ p.weekly_targets, ∀ dp, wd.day_prescription = some dp →
      ∀ e ∈ dp, ∀ a ∈ e.2, a < σ.length) (W : Nat) :
    Heap.StoreExtends σ (Heap.calculatePrescriptionForWeekH upd σ p W).1 ∧
    Heap.derefDayMap (Heap.calculatePrescriptionForWeekH upd σ p W).1
        (Heap.calculatePrescriptionForWeekH upd σ p W).2
      = calculatePrescriptionForWeekG upd (Heap.derefProgram σ p) W := by
  obtain ⟨he, _, hr⟩ := heap_fold_spec upd p σ hp
    ((List.range W).map (· + 1)) σ [] (storeExtends_refl σ) (by simp)
  exact ⟨he, hr⟩

/-- Dereferencing a valid program is unaffected by store extension. -/
theorem derefProgram_stable {σ σ' : Heap.Store} (p : Heap.HTrainingProgram)
    (hp : ∀ wd ∈ p.weekly_targets, ∀ dp, wd.day_prescription = some dp →
      ∀ e ∈ dp, ∀ a ∈ e.2, a < σ.length)
    (he : Heap.StoreExtends σ σ') :
    Heap.derefProgram σ' p = Heap.derefProgram σ p := by
  unfold Heap.derefProgram
  congr 1
  apply List.map_congr_left
  intro wd hwd
  unfold Heap.derefWeek
  cases hdp : wd.day_prescription with
  | none => rfl
  | some dp =>
    have hd := derefDayMap_stable (hp wd hwd dp hdp) he
    simp [hd]

/-- The boolean validity check implies the propositional validity used by
the heap lemmas. -/
theorem validProgramB_spec (σ : Heap.Store) (p : Heap.HTrainingProgram)
    (h : Heap.validProgramB σ p = true) :
    ∀ wd ∈ p.weekly_targets, ∀ dp, wd.day_prescription = some dp →
      ∀ e ∈ dp, ∀ a ∈ e.2, a < σ.length := by
  intro wd hwd dp hdp e heMem a ha
  unfold Heap.validProgramB at h
  rw [List.all_eq_true] at h
  have h1 := h wd hwd
  rw [hdp] at h1
  unfold Heap.validDayMapB at h1
  rw [List.all_eq_true] at h1
  have h2 := h1 e heMem
  rw [List.all_eq_true] at h2
  have h3 := h2 a ha
  simpa using h3

/-- The generic resolver skeleton instantiated at the `utils.ts` per-key
update is exactly the `utils.ts` resolver. -/
theorem calcG_utils :
    calculatePrescriptionForWeekG UtilsTs.applyDeltaKey
      = UtilsTs.calculatePrescriptionForWeek := rfl

/-- The generic resolver skeleton instantiated at the `part_001` per-key
update is exactly the `part_001` resolver. -/
theorem calcG_part001 :
    calculatePrescriptionForWeekG Part001.applyDeltaKey
      = Part001.calculatePrescriptionForWeek := rfl

/-- Running the heap-level resolver never mutates the program: the
dereferenced program is unchanged after one run and after a second run,
and the second run returns a day map with the same dereferenced contents
as the first (for any per-key update function). -/
theorem heap_non_mutation
    (upd : PrescriptionItem → String → String → PrescriptionItem)
    (σ : Heap.Store) (p : Heap.HTrainingProgram) (W : Nat)
    (hv : Heap.validProgramB σ p = true) :
    Heap.derefProgram (Heap.calculatePrescriptionForWeekH upd σ p W).1 p
      = Heap.derefProgram σ p ∧
    Heap.derefProgram
        (Heap.calculatePrescriptionForWeekH upd
          (Heap.calculatePrescriptionForWeekH upd σ p W).1 p W).1 p
      = Heap.derefProgram σ p ∧
    Heap.derefDayMap
        (Heap.calculatePrescriptionForWeekH upd
          (Heap.calculatePrescriptionForWeekH upd σ p W).1 p W).1
        (Heap.calculatePrescriptionForWeekH upd
          (Heap.calculatePrescriptionForWeekH upd σ p W).1 p W).2
      = Heap.derefDayMap (Heap.calculatePrescriptionForWeekH upd σ p W).1
          (Heap.calculatePrescriptionForWeekH upd σ p W).2 := by
  have hp := validProgramB_spec σ p hv
  obtain ⟨he1, hr1⟩ := heap_calc_spec upd σ p hp W
  have hd1 : Heap.derefProgram (Heap.calculatePrescriptionForWeekH upd σ p W).1 p
      = Heap.derefProgram σ p := derefProgram_stable p hp he1
  have hp1 : ∀ wd ∈ p.weekly_targets, ∀ dp, wd.day_prescription = some dp →
      ∀ e ∈ dp, ∀ a ∈ e.2,
        a < (Heap.calculatePrescriptionForWeekH upd σ p W).1.length :=
    fun wd hwd dp hdp e heM a ha =>
      lt_of_lt_of_le (hp wd hwd dp hdp e heM a ha) he1.1
  obtain ⟨he2, hr2⟩ := heap_calc_spec upd
    (Heap.calculatePrescriptionForWeekH upd σ p W).1 p hp1 W
  have hd2 := derefProgram_stable p hp1 he2
  refine ⟨hd1, by rw [hd2, hd1], ?_⟩
  rw [hr2, hd1, hr1]

/-- C8: Non-mutation.  In the heap model of the two resolvers (item
objects live in a store; `JSON.parse(JSON.stringify(...))` and the spread
`{ ...item }` allocate fresh objects; per-delta-key mutations are store
writes on the fresh copy), running either resolver leaves every object
reachable from the program unchanged — `program.weekly_targets` has the
same dereferenced (structural) contents before and after the call — and
running it twice with the same program and week returns day maps with
equal dereferenced contents. -/
theorem claim_C8_non_mutation (σ : Heap.Store) (p : Heap.HTrainingProgram)
    (W : Nat) (hv : Heap.validProgramB σ p = true) :
    (Heap.derefProgram
        (Heap.calculatePrescriptionForWeekH UtilsTs.applyDeltaKey σ p W).1 p
      = Heap.derefProgram σ p ∧
     Heap.derefProgram
        (Heap.calculatePrescriptionForWeekH UtilsTs.applyDeltaKey
          (Heap.calculatePrescriptionForWeekH UtilsTs.applyDeltaKey σ p W).1
          p W).1 p
      = Heap.derefProgram σ p ∧
     Heap.derefDayMap
        (Heap.calculatePrescriptionForWeekH UtilsTs.applyDeltaKey
          (Heap.calculatePrescriptionForWeekH UtilsTs.applyDeltaKey σ p W).1
          p W).1
        (Heap.calculatePrescriptionForWeekH UtilsTs.applyDeltaKey
          (Heap.calculatePrescriptionForWeekH UtilsTs.applyDeltaKey σ p W).1
          p W).2
      = Heap.derefDayMap
          (Heap.calculatePrescriptionForWeekH UtilsTs.applyDeltaKey σ p W).1
          (Heap.calculatePrescriptionForWeekH UtilsTs.applyDeltaKey σ p W).2) ∧
    (Heap.derefProgram
        (Heap.calculatePrescriptionForWeekH Part001.applyDeltaKey σ p W).1 p
      = Heap.derefProgram σ p ∧
     Heap.derefProgram
        (Heap.calculatePrescriptionForWeekH Part001.applyDeltaKey
          (Heap.calculatePrescriptionForWeekH Part001.applyDeltaKey σ p W).1
          p W).1 p
      = Heap.derefProgram σ p ∧
     Heap.derefDayMap
        (Heap.calculatePrescriptionForWeekH Part001.applyDeltaKey
          (Heap.calculatePrescriptionForWeekH Part001.applyDeltaKey σ p W).1
          p W).1
        (Heap.calculatePrescriptionForWeekH Part001.applyDeltaKey
          (Heap.calculatePrescriptionForWeekH Part001.applyDeltaKey σ p W).1
          p W).2
      = Heap.derefDayMap
          (Heap.calculatePrescriptionForWeekH Part001.applyDeltaKey σ p W).1
          (Heap.calculatePrescriptionForWeekH Part001.applyDeltaKey σ p W).2) :=
  ⟨heap_non_mutation UtilsTs.applyDeltaKey σ p W hv,
   heap_non_mutation Part001.applyDeltaKey σ p W hv⟩

/-- C8 witness: the non-mutation theorem applied to the concrete one-item
store and heap program at target week 2. -/
theorem claim_C8_witness :
    Heap.derefProgram
        (Heap.calculatePrescriptionForWeekH UtilsTs.applyDeltaKey
          Heap.storeEx Heap.progHeapEx 2).1 Heap.progHeapEx
      = Heap.derefProgram Heap.storeEx Heap.progHeapEx ∧
    Heap.derefProgram
        (Heap.calculatePrescriptionForWeekH Part001.applyDeltaKey
          Heap.storeEx Heap.progHeapEx 2).1 Heap.progHeapEx
      = Heap.derefProgram Heap.storeEx Heap.progHeapEx :=
  ⟨(claim_C8_non_mutation Heap.storeEx Heap.progHeapEx 2 (by decide)).1.1,
   (claim_C8_non_mutation Heap.storeEx Heap.progHeapEx 2 (by decide)).2.1⟩
